import Mathlib

/-!
# Verification of the stairled-server animation runtime

Shallow embedding of the core of the stairled-server repository:

* `TLA` / `TLA.setCurrentPosition` / `TLA.setAbsolutePosition` /
  `mkTimelineAnimation` embed `animations/TimelineAnimation.js`;
* `TimeLine` and its operations embed the timeline container class
  (`TimeLine.add`, `setStartTime`, `setCurrentPosition`, `getActiveItems`);
* `PinMapperSt` with `setPinMapping` / `getMappedPin` / `setBrightness`
  embeds `PinMapper.js`;
* `DispatchSt` with `Sensor.processTrigger` embeds the sensor trigger
  path of `Sensor.js`.

Machine numbers of the source (JS numbers holding millisecond timestamps,
durations and 12-bit brightness values) are modelled as `ℤ`; the one place
the source divides (`progress` computation) is carried out in `ℚ`, which is
exact for the integer inputs of interest.  `Math.round` in JS rounds half
towards positive infinity on every input, which coincides with Mathlib's
`round` (`⌊x + 1/2⌋`) on `ℚ`.
-/

namespace Stairled

/-- State of a `TimelineAnimation` instance (`animations/TimelineAnimation.js`).
Times are milliseconds.  `absoluteEnd` and `absoluteCurrent` are initialised
to JS `null` by the constructor, modelled by `Option`.  In JS a numeric
comparison against `null` coerces `null` to `0`; `TLA.setCurrentPosition`
reproduces this with `Option.getD 0`.  The extra field `onStartCount`
instruments the `onStart()` lifecycle hook (a no-op in the base class): it
counts how often the hook has fired, so that "fires exactly once" becomes a
statement about the state. -/
structure TLA where
  duration : ℤ
  absoluteStart : ℤ
  absoluteEnd : Option ℤ
  absoluteCurrent : Option ℤ
  relativeStart : ℤ
  progress : ℤ
  active : Bool
  ended : Bool
  started : Bool
  onStartCount : ℕ
deriving DecidableEq, Repr

/-- The part of a `TimelineAnimation` `options` object that the base-class
validation rules (`TimelineAnimation.getValidationRules`) inspect:
`duration` and `leds` are required fields, `brightness` is optional with
range `[0, 4095]`.  `none` models an absent (`undefined`) field.  The JS
`typeof`/`Array.isArray` checks are carried by the Lean types of the
fields themselves. -/
structure AnimOptions where
  duration : Option ℤ
  leds : Option (List ℤ)
  brightness : Option ℤ
deriving DecidableEq, Repr

/-- Embeds `TimelineAnimation.validateOptions(options)` specialised to the base
class rules.  Checks, in source order: required fields (`duration`, then
`leds`), then numeric ranges (`duration ≥ 0`; `brightness ∈ [0, 4095]`).
No check at all is made on the contents of the `leds` array. -/
def validateOptions (o : AnimOptions) : Except String Unit :=
  match o.duration, o.leds with
  | none, _ => .error "duration is required for TimelineAnimation"
  | _, none => .error "leds is required for TimelineAnimation"
  | some d, some _ =>
    if d < 0 then .error "duration must be >= 0"
    else
      match o.brightness with
      | some b =>
        if b < 0 then .error "brightness must be >= 0"
        else if 4095 < b then .error "brightness must be <= 4095"
        else .ok ()
      | none => .ok ()

/-- Embeds `TimelineAnimation.calculateDuration()` of the base class:
unconditionally throws. -/
def calculateDuration : Except String ℤ :=
  .error "No duration passed to options. Perform calculation here."

/-- Embeds `new TimelineAnimation(options)`: runs `validateOptions`, then sets
`this.duration = this.options.duration || this.calculateDuration()` — JS
`||` treats the number `0` as absent, so a zero duration falls through to
`calculateDuration()` — and initialises every timing and lifecycle field. -/
def mkTimelineAnimation (o : AnimOptions) : Except String TLA := do
  validateOptions o
  let d ← match o.duration with
    | some d => if d = 0 then calculateDuration else pure d
    | none => calculateDuration
  pure { duration := d, absoluteStart := 0, absoluteEnd := none,
         absoluteCurrent := none, relativeStart := 0, progress := 0,
         active := false, ended := false, started := false, onStartCount := 0 }

/-- Embeds `TimelineAnimation.setRelativePosition(startTime)`. -/
def TLA.setRelativePosition (s : TLA) (startTime : ℤ) : TLA :=
  { s with relativeStart := startTime }

/-- Embeds `TimelineAnimation.setAbsolutePosition(t0)`: sets `absoluteStart = t0`
and `absoluteEnd = t0 + (this.duration || this.calculateDuration())`.
As in the constructor, JS `||` sends a zero duration to
`calculateDuration()`, which throws in the base class. -/
def TLA.setAbsolutePosition (s : TLA) (t0 : ℤ) : Except String TLA :=
  if s.duration = 0 then do
    let d ← calculateDuration
    pure { s with absoluteStart := t0, absoluteEnd := some (t0 + d) }
  else
    pure { s with absoluteStart := t0, absoluteEnd := some (t0 + s.duration) }

/-- Embeds `TimelineAnimation.setCurrentPosition(currentTime)`, the per-tick state
update.  Faithful transcription:

* first branch when `currentTime` lies in `[absoluteStart, absoluteEnd]`
  (with JS coercing a `null` end to `0`) **or** the animation is active and
  not ended: latch `started`, fire `onStart()` on the first transition,
  set `active`, record `absoluteCurrent`, and set
  `progress = min(round((100 / duration) * (currentTime - absoluteStart)), 100)`;
* otherwise clear `active` and `absoluteCurrent`;
* afterwards, if `currentTime ≥ absoluteEnd`: `progress = 100`, `ended = true`;
  else if `currentTime < absoluteStart`: `progress = 0`.

For `duration = 0` the JS expression yields `Infinity` and the `min` gives
`100`, whereas `ℚ` division gives `0`; constructed animations always have a
non-zero duration (`mkTimelineAnimation` rejects `0`), and every theorem
below about `progress` assumes a positive duration.

The body is split in two definitions: `tickPhase1` is the leading
`if/else` of the source method and `setCurrentPosition` adds the two
trailing `if` statements that overwrite `progress`/`ended`. -/
def TLA.tickPhase1 (s : TLA) (t : ℤ) : TLA :=
  if (s.absoluteStart ≤ t ∧ t ≤ s.absoluteEnd.getD 0) ∨ (s.active = true ∧ s.ended = false) then
    { s with
      started := true
      onStartCount := if s.started then s.onStartCount else s.onStartCount + 1
      active := true
      absoluteCurrent := some t
      progress :=
        min (round ((100 / (s.duration : ℚ)) * ((t : ℚ) - (s.absoluteStart : ℚ)))) 100 }
  else { s with active := false, absoluteCurrent := none }

def TLA.setCurrentPosition (s : TLA) (t : ℤ) : TLA :=
  if s.absoluteEnd.getD 0 ≤ t then { s.tickPhase1 t with progress := 100, ended := true }
  else if t < s.absoluteStart then { s.tickPhase1 t with progress := 0 }
  else s.tickPhase1 t

/-- Iterated ticking: fold `setCurrentPosition` over a list of times. -/
def TLA.ticks (s : TLA) (ts : List ℤ) : TLA :=
  ts.foldl TLA.setCurrentPosition s

/-- A `TimelineAnimation` instance mid-run: duration 10 ms, window
`[0, 10]`, currently active at `t = 5` and not yet ended. -/
def runningTLA : TLA :=
  { duration := 10, absoluteStart := 0, absoluteEnd := some 10,
    absoluteCurrent := some 5, relativeStart := 0, progress := 50,
    active := true, ended := false, started := true, onStartCount := 1 }

/-- A freshly constructed 10 ms animation (the state
`mkTimelineAnimation` returns for `{duration: 10, leds: [1]}`). -/
def fadeTLA : TLA :=
  { duration := 10, absoluteStart := 0, absoluteEnd := none,
    absoluteCurrent := none, relativeStart := 0, progress := 0,
    active := false, ended := false, started := false, onStartCount := 0 }

/-- The animation `fadeTLA` armed at absolute time 0
(the state `setAbsolutePosition 0` returns). -/
def armedTLA : TLA :=
  { fadeTLA with absoluteStart := 0, absoluteEnd := some (0 + 10) }

/-- State of a `TimeLine` container (`animationengine/TimeLine.js`).  The JS
`queue` is a plain object keyed by the millisecond offset; JS objects
iterate integer-like keys in ascending numeric order, so the queue is
modelled as an association list kept sorted by key (`insertQueue` below),
each key carrying its animations in push (insertion) order.  `activeItems`
is the cache field written by `getActiveItems`. -/
structure TimeLine where
  queue : List (ℕ × List TLA)
  startTime : ℤ
  currentPosition : ℤ
  duration : ℤ
  diff : ℤ
  activeItems : Option (List TLA)
deriving DecidableEq, Repr

/-- Inserting into the queue object: push onto an existing key, otherwise
create the key at its (ascending) position — the position JS object key
iteration gives it. -/
def insertQueue (k : ℕ) (a : TLA) : List (ℕ × List TLA) → List (ℕ × List TLA)
  | [] => [(k, [a])]
  | (j, items) :: rest =>
    if k = j then (j, items ++ [a]) :: rest
    else if k < j then (k, [a]) :: (j, items) :: rest
    else (j, items) :: insertQueue k a rest

/-- Embeds `new TimeLine()`. -/
def emptyTimeLine : TimeLine :=
  { queue := [], startTime := 0, currentPosition := 0, duration := 0,
    diff := 0, activeItems := none }

/-- Embeds `TimeLine.add(startTime, instance)`: pushes
`instance.setRelativePosition(startTime)` onto `queue[startTime]` and
raises `duration` to `startTime + instance.duration` whenever
`duration <= startTime + instance.duration`. -/
def TimeLine.add (tl : TimeLine) (startTime : ℕ) (inst : TLA) : TimeLine :=
  { tl with
    queue := insertQueue startTime (inst.setRelativePosition (startTime : ℤ)) tl.queue
    duration :=
      if tl.duration ≤ (startTime : ℤ) + inst.duration then (startTime : ℤ) + inst.duration
      else tl.duration }

/-- A finite sequence of `add` calls. -/
def TimeLine.addAll (tl : TimeLine) (l : List (ℕ × TLA)) : TimeLine :=
  l.foldl (fun acc p => acc.add p.1 p.2) tl

/-- Embeds `TimeLine.setCurrentPosition(time)`: records the position and the
elapsed difference, and calls `setCurrentPosition(time)` on every item of
every queue slot. -/
def TimeLine.setCurrentPosition (tl : TimeLine) (time : ℤ) : TimeLine :=
  { tl with
    currentPosition := time
    diff := time - tl.startTime
    queue := tl.queue.map (fun p => (p.1, p.2.map (fun i => i.setCurrentPosition time))) }

/-- Embeds `TimeLine.getAllItems()`: flatten the queue in key iteration
order. -/
def TimeLine.allItems (tl : TimeLine) : List TLA :=
  (tl.queue.map Prod.snd).flatten

/-- Embeds `TimeLine.getActiveItems()`: collect, in queue iteration order,
every item whose `active` flag is set; also stores the result in the
`activeItems` cache field.  Returns the list together with the updated
container. -/
def TimeLine.getActiveItems (tl : TimeLine) : List TLA × TimeLine :=
  let output := (tl.queue.map (fun p => p.2.filter (fun i => i.active))).flatten
  (output, { tl with activeItems := some output })

/-- Content of the queue slot for key `k` (`[]` when the key is absent). -/
def groupOf (q : List (ℕ × List TLA)) (k : ℕ) : List TLA :=
  ((q.find? (fun p => p.1 == k)).map Prod.snd).getD []

/-- A 1000 ms animation armed with window `[0, 1000]`. -/
def itemB : TLA :=
  { duration := 1000, absoluteStart := 0, absoluteEnd := some 1000,
    absoluteCurrent := none, relativeStart := 0, progress := 0,
    active := false, ended := false, started := false, onStartCount := 0 }

/-- A 1000 ms animation armed with window `[500, 1500]`. -/
def itemA : TLA :=
  { itemB with absoluteStart := 500, absoluteEnd := some 1500 }

/-- Timeline built by `add(500, itemA)` followed by `add(0, itemB)` —
insertion order is `[itemA, itemB]`. -/
def cexTimeLine : TimeLine :=
  (emptyTimeLine.add 500 itemA).add 0 itemB

/-- One entry of the `PinMapper` mapping array: `{driver, pin, step}`.
Driver addresses (hex strings such as `"0x40"` in JS, normalised to lower
case) are modelled by their numeric value. -/
structure MapEntry where
  driver : ℕ
  pin : ℕ
  step : ℕ
deriving DecidableEq, Repr

/-- State of the `PinMapper` singleton (`PinMapper.js`).

* `drivers` — the addresses with a registered PCA9685 driver instance
  (`this.drivers`, an object keyed by address);
* `pinMapping` — the authoritative `{driver, pin, step}` array;
* `device` — observable hardware state: the last value written by
  `driver.setPwm(pin, 0, value)` per `(address, channel)`;
* `brightnesses` — the per-step brightness cache (`this.brightnesses`);
* `lookupCache` — `this._lookupCache` (`none` = JS `null`);
* `reported` — `this._reportedErrors`, the set of `(step, message)` keys
  already warned about; `logs` — the warnings actually emitted. -/
structure PinMapperSt where
  drivers : List ℕ
  pinMapping : List MapEntry
  device : ℕ → ℕ → ℤ
  brightnesses : ℕ → Option ℤ
  lookupCache : Option (List MapEntry)
  reported : List (ℕ × String)
  logs : List (ℕ × String)

/-- Embeds `driver.setPwm(ch, 0, v)`: point update of the device state. -/
def setPwm (d ch : ℕ) (v : ℤ) (f : ℕ → ℕ → ℤ) : ℕ → ℕ → ℤ :=
  fun a c => if a = d ∧ c = ch then v else f a c

/-- Embeds `PinMapper.setPinMapping(mapping)`: first writes zero to all 16
channels of every registered driver, then swaps in the new mapping and
clears `_lookupCache`, then writes zero to every newly mapped pin whose
driver exists (`getDriver` throws for unknown drivers; the exception is
caught and only logged). -/
def PinMapperSt.setPinMapping (st : PinMapperSt) (m2 : List MapEntry) : PinMapperSt :=
  let dev1 := st.drivers.foldl
    (fun f d => (List.range 16).foldl (fun g ch => setPwm d ch 0 g) f) st.device
  let dev2 := m2.foldl
    (fun f e => if e.driver ∈ st.drivers then setPwm e.driver e.pin 0 f else f) dev1
  { st with pinMapping := m2, lookupCache := none, device := dev2 }

/-- Lookup in the JS `Map` built from the mapping entries keyed by `step`:
later entries overwrite earlier ones, so the lookup finds the last entry
with the given step. -/
def lookupStep (m : List MapEntry) (step : ℕ) : Option MapEntry :=
  m.reverse.find? (fun e => e.step == step)

/-- Embeds `PinMapper.getMappedPin(step)`: lazily builds `_lookupCache`
from the current mapping, then resolves the step.  `none` models the
thrown `Step ... is unknown in current pinMapping` error. -/
def PinMapperSt.getMappedPin (st : PinMapperSt) (step : ℕ) :
    Option MapEntry × PinMapperSt :=
  let c := st.lookupCache.getD st.pinMapping
  (lookupStep c step, { st with lookupCache := some c })

/-- Message of the error `getMappedPin` throws for an unknown step. -/
def unknownStepMsg : String := "is unknown in current pinMapping"

/-- Message of the error `getDriver` throws for an unregistered driver. -/
def driverMissingMsg : String := "Could not find PCA9685 driver"

/-- The once-per-unique-key warning of `setBrightness`'s catch block:
log only if the `(step, message)` key is not in `_reportedErrors`. -/
def PinMapperSt.warnOnce (st : PinMapperSt) (key : ℕ × String) : PinMapperSt :=
  if key ∈ st.reported then st
  else { st with reported := key :: st.reported, logs := key :: st.logs }

/-- Embeds `PinMapper.setBrightness(mappedPin, brightness)` for numeric
arguments (the two leading `isNaN` guards never fire on numbers): clamp to
`[0, 4095]`, resolve the step, record the clamped value in the per-step
cache and write it to the mapped driver channel; a resolution failure is
caught and warned about once per unique `(step, message)` key, leaving
cache and device untouched.  The call `this.getMappedPin(mappedPin)` is
inlined (same body as `PinMapperSt.getMappedPin` above). -/
def PinMapperSt.setBrightness (st : PinMapperSt) (step : ℕ) (v : ℤ) : PinMapperSt :=
  let b : ℤ := min (max v 0) 4095
  let cache := st.lookupCache.getD st.pinMapping
  let st1 : PinMapperSt := { st with lookupCache := some cache }
  match lookupStep cache step with
  | none => st1.warnOnce (step, unknownStepMsg)
  | some e =>
    let st2 : PinMapperSt :=
      { st1 with brightnesses := fun s => if s = step then some b else st1.brightnesses s }
    if e.driver ∈ st2.drivers then { st2 with device := setPwm e.driver e.pin b st2.device }
    else st2.warnOnce (step, driverMissingMsg)

/-- A mapper with one registered driver `0x40 = 64`, one mapped step, and a
lit channel. -/
def demoPM : PinMapperSt :=
  { drivers := [64], pinMapping := [⟨64, 0, 1⟩],
    device := fun _ _ => 2000, brightnesses := fun _ => none,
    lookupCache := none, reported := [], logs := [] }

/-- A replacement mapping moving step 1 to channel 5. -/
def demoMapping2 : List MapEntry := [⟨64, 5, 1⟩]

/-- Comparison operator of a sensor (`triggerType`: `"<="`, `">="`, `"=="`). -/
inductive TriggerOp
  | le
  | ge
  | eq
deriving DecidableEq, Repr

/-- Modelled from the spec: the entry a sensor's `triggerEffect` resolves
to in `animationService.animations`.  `services/AnimationService.js` and
`animationengine/LedstripAnimation.js` are not part of `src/`; per the
spec every animation carries a lifecycle flag `started` — latched `true`
by `start()` for the whole run and cleared when the run ends (§4.4: the
flags are monotonic during a run; §4.6/§5: at most one animation runs,
new starts while one is running are rejected) — and a timeline with a
total `duration` in milliseconds. -/
structure Anim where
  started : Bool
  duration : ℤ
deriving DecidableEq, Repr

/-- State of one `Sensor` instance (`Sensor.js` constructor fields used by
the trigger path).  `trigger` never consults `enabled`; the field is kept
because the spec's premises mention it. -/
structure SensorSt where
  enabled : Bool
  active : Bool
  lastTriggered : Option ℤ
  triggerThreshold : ℤ
  triggerType : TriggerOp
  triggerEffect : String
deriving DecidableEq, Repr

/-- Dispatcher state: the sensor instances and the animation registry
(`animationService.animations`, a JS `Map` iterated by `forEach` in
`Sensor.trigger`). -/
structure DispatchSt where
  sensors : List SensorSt
  registry : List (String × Anim)
deriving DecidableEq, Repr

/-- Observable outcome of one dispatch step: the successor state, the name
of the animation whose `start()` was called (if any), and the delay of the
`setTimeout` scheduled to clear `sensor.active` (if any). -/
structure TriggerResult where
  state : DispatchSt
  startedAnim : Option String
  clearDelay : Option ℤ
deriving DecidableEq, Repr

/-- Registry lookup, `animationService.animations.get(name)`. -/
def lookupAnim (reg : List (String × Anim)) (name : String) : Option Anim :=
  (reg.find? (fun p => p.1 == name)).map Prod.snd

/-- The `skip` computation of `Sensor.trigger`:
`animationService.animations.forEach(anim => { if (anim.started) skip = true })`. -/
def anyStarted (reg : List (String × Anim)) : Bool :=
  reg.any (fun p => p.2.started)

/-- Modelled from the spec: `anim.start()` latches the `started` flag of
the named registry entry (see `Anim`). -/
def startAnim (reg : List (String × Anim)) (name : String) : List (String × Anim) :=
  reg.map (fun p => if p.1 = name then (p.1, { p.2 with started := true }) else p)

/-- Embeds `Sensor.trigger(value)` for the sensor at index `i`, at wall
time `now`: a sensor that is already `active` does nothing; otherwise it
sets `active = true`, records `lastTriggered`, schedules
`setTimeout(() => this.active = false, 2000)` — a fixed 2000 ms — and,
when its animation reference resolves, starts it unless some registry
animation still has `started` set (the single-flight `skip` check). -/
def DispatchSt.trigger (st : DispatchSt) (i : ℕ) (now : ℤ) : TriggerResult :=
  match st.sensors[i]? with
  | none => ⟨st, none, none⟩
  | some s =>
    if s.active then ⟨st, none, none⟩
    else
      let s2 := { s with active := true, lastTriggered := some now }
      let sensors2 := st.sensors.set i s2
      match lookupAnim st.registry s.triggerEffect with
      | some _ =>
        if anyStarted st.registry then
          ⟨{ st with sensors := sensors2 }, none, some 2000⟩
        else
          ⟨{ sensors := sensors2, registry := startAnim st.registry s.triggerEffect },
            some s.triggerEffect, some 2000⟩
      | none => ⟨{ st with sensors := sensors2 }, none, some 2000⟩

/-- Embeds `Sensor.processTrigger(value)`: evaluate the configured
comparison of the sample value against the threshold. -/
def condMatches (op : TriggerOp) (value threshold : ℤ) : Bool :=
  match op with
  | .le => decide (value ≤ threshold)
  | .ge => decide (threshold ≤ value)
  | .eq => decide (value = threshold)

/-- Embeds `Sensor.processTrigger(value)` followed by the conditional call
to `trigger`: the sensor-dispatch step for one arriving sample. -/
def DispatchSt.processTrigger (st : DispatchSt) (i : ℕ) (value now : ℤ) :
    TriggerResult :=
  match st.sensors[i]? with
  | none => ⟨st, none, none⟩
  | some s =>
    if condMatches s.triggerType value s.triggerThreshold then st.trigger i now
    else ⟨st, none, none⟩

/-- The sensor-dispatch step relation: a sample arrives at a sensor, a
sensor's 2000 ms `setTimeout` fires (`this.active = false`), or a running
animation finishes (its `started` flag clears; modelled from the spec,
see `Anim`). -/
inductive DispatchStep : DispatchSt → DispatchSt → Prop
  | trigger (i : ℕ) (value now : ℤ) (st : DispatchSt) :
      DispatchStep st (st.processTrigger i value now).state
  | clearActive (i : ℕ) (st : DispatchSt) (s : SensorSt)
      (h : st.sensors[i]? = some s) :
      DispatchStep st { st with sensors := st.sensors.set i { s with active := false } }
  | animFinished (name : String) (st : DispatchSt) :
      DispatchStep st
        { st with
          registry := st.registry.map
            (fun p => if p.1 = name then (p.1, { p.2 with started := false }) else p) }

/-- Reachability in the dispatch step relation. -/
def Reachable (init st : DispatchSt) : Prop :=
  Relation.ReflTransGen DispatchStep init st

/-- A registry with one 5000 ms animation, not running. -/
def demoRegistry : List (String × Anim) := [("fade", ⟨false, 5000⟩)]

/-- An idle, enabled sensor triggering `fade` when the value is ≥ 10. -/
def demoSensor : SensorSt :=
  { enabled := true, active := false, lastTriggered := none,
    triggerThreshold := 10, triggerType := .ge, triggerEffect := "fade" }

/-- Two idle sensors sharing the `fade` animation. -/
def demoDispatch : DispatchSt :=
  { sensors := [demoSensor, demoSensor], registry := demoRegistry }

/-- Tick phase 1 touches no timing configuration field. -/
theorem tickPhase1_absoluteEnd (s : TLA) (t : ℤ) :
    (s.tickPhase1 t).absoluteEnd = s.absoluteEnd := by
  unfold TLA.tickPhase1; split <;> rfl

theorem tickPhase1_absoluteStart (s : TLA) (t : ℤ) :
    (s.tickPhase1 t).absoluteStart = s.absoluteStart := by
  unfold TLA.tickPhase1; split <;> rfl

theorem tickPhase1_duration (s : TLA) (t : ℤ) :
    (s.tickPhase1 t).duration = s.duration := by
  unfold TLA.tickPhase1; split <;> rfl

/-- A full tick touches no timing configuration field either. -/
theorem tick_absoluteEnd (s : TLA) (t : ℤ) :
    (s.setCurrentPosition t).absoluteEnd = s.absoluteEnd := by
  unfold TLA.setCurrentPosition; split_ifs <;> simp [tickPhase1_absoluteEnd]

theorem tick_absoluteStart (s : TLA) (t : ℤ) :
    (s.setCurrentPosition t).absoluteStart = s.absoluteStart := by
  unfold TLA.setCurrentPosition; split_ifs <;> simp [tickPhase1_absoluteStart]

theorem tick_duration (s : TLA) (t : ℤ) :
    (s.setCurrentPosition t).duration = s.duration := by
  unfold TLA.setCurrentPosition; split_ifs <;> simp [tickPhase1_duration]

/-- Shape of a tick whose time is at or past the (coerced) absolute end. -/
theorem tick_of_end_le (s : TLA) (t : ℤ) (h : s.absoluteEnd.getD 0 ≤ t) :
    s.setCurrentPosition t = { s.tickPhase1 t with progress := 100, ended := true } := by
  unfold TLA.setCurrentPosition; rw [if_pos h]

/-- Phase 1 deactivates when neither disjunct of its guard holds. -/
theorem tickPhase1_not_activating (s : TLA) (t : ℤ)
    (h : ¬((s.absoluteStart ≤ t ∧ t ≤ s.absoluteEnd.getD 0) ∨
           (s.active = true ∧ s.ended = false))) :
    (s.tickPhase1 t).active = false := by
  unfold TLA.tickPhase1; rw [if_neg h]

/-- C10: a `TimelineAnimation` configured with `duration = 0` passes
validation (the range rule only demands `duration ≥ 0`), yet construction
fails: JS `options.duration || this.calculateDuration()` treats `0` as
absent and `calculateDuration()` of the base class throws. -/
theorem zero_duration_construction_fails :
    validateOptions { duration := some 0, leds := some [1], brightness := none } = .ok () ∧
    mkTimelineAnimation { duration := some 0, leds := some [1], brightness := none } =
      .error "No duration passed to options. Perform calculation here." :=
  ⟨rfl, rfl⟩

/-- C7 counterexample: an options object whose `leds` is the empty array is
*accepted* — `validateOptions` succeeds and the constructor returns an
animation — contradicting the claim that an empty `leds` array is rejected
at construction. -/
theorem empty_leds_accepted_cex :
    validateOptions { duration := some 1000, leds := some [], brightness := none } = .ok () ∧
    (mkTimelineAnimation
        { duration := some 1000, leds := some [], brightness := none }).isOk = true :=
  ⟨rfl, rfl⟩

/-- C7 (amended): base-class validation accepts an options object exactly
when `duration` and `leds` are present, `duration ≥ 0`, and `brightness`
(when given) lies in `[0, 4095]`.  In particular acceptance never depends
on the contents of `leds`: emptiness or non-positive entries are not
checked. -/
theorem validateOptions_ok_iff (o : AnimOptions) :
    validateOptions o = .ok () ↔
      (o.duration ≠ none ∧ o.leds ≠ none ∧
       (∀ d, o.duration = some d → 0 ≤ d) ∧
       (∀ b, o.brightness = some b → 0 ≤ b ∧ b ≤ 4095)) := by
  rcases o with ⟨d, l, b⟩
  cases d <;> cases l <;> cases b <;> simp only [validateOptions] <;>
    first
      | (split_ifs <;> simp_all)
      | simp_all

/-- Witness for `validateOptions_ok_iff` at a concrete input. -/
theorem validateOptions_ok_iff_witness :
    validateOptions { duration := some 7, leds := some [], brightness := some 4095 } = .ok () :=
  (validateOptions_ok_iff _).mpr
    ⟨by simp, by simp, by simp, by intro b hb; cases hb; omega⟩

/-- C2 counterexample: ticking the mid-run animation `runningTLA`
(window `[0, 10]`, `active = true`, `ended = false`) at `t = 11 > 10 =
absolute_end` yields `progress = 100` and `ended = true` but leaves
`active = true`: the `(this.active && !this.ended)` disjunct of
`setCurrentPosition` keeps the overshooting tick in the activating branch,
refuting `V.active == false`. -/
theorem tick_past_end_keeps_active_cex :
    runningTLA.absoluteEnd = some 10 ∧ (10 : ℤ) < 11 ∧
    (runningTLA.setCurrentPosition 11).progress = 100 ∧
    (runningTLA.setCurrentPosition 11).ended = true ∧
    (runningTLA.setCurrentPosition 11).active = true := by
  refine ⟨rfl, by decide, ?_, ?_, ?_⟩ <;> decide

/-- C2 (amended): for any animation with `absoluteEnd` set and any
`t > absoluteEnd`, `setCurrentPosition t` yields `progress = 100` and
`ended = true`; `active = false` also holds *provided* the animation was
not both active and un-ended before the call.  A first overshooting tick
of a running animation instead leaves `active = true`, and the
immediately following tick (same `t`) then clears it. -/
theorem tick_past_end_state (s : TLA) (e t : ℤ) (he : s.absoluteEnd = some e)
    (ht : e < t) :
    (s.setCurrentPosition t).progress = 100 ∧
    (s.setCurrentPosition t).ended = true ∧
    (¬(s.active = true ∧ s.ended = false) → (s.setCurrentPosition t).active = false) ∧
    ((s.setCurrentPosition t).setCurrentPosition t).active = false := by
  have hle : s.absoluteEnd.getD 0 ≤ t := by rw [he]; simp only [Option.getD_some]; omega
  have hsc := tick_of_end_le s t hle
  refine ⟨by rw [hsc], by rw [hsc], ?_, ?_⟩
  · intro hna
    rw [hsc]
    show (s.tickPhase1 t).active = false
    refine tickPhase1_not_activating s t ?_
    rintro (⟨_, h2⟩ | hab)
    · rw [he] at h2; simp only [Option.getD_some] at h2; omega
    · exact hna hab
  · have h1 : (s.setCurrentPosition t).ended = true := by rw [hsc]
    have h2 : (s.setCurrentPosition t).absoluteEnd = some e := by
      rw [hsc]
      show (s.tickPhase1 t).absoluteEnd = some e
      rw [tickPhase1_absoluteEnd, he]
    have hle2 : (s.setCurrentPosition t).absoluteEnd.getD 0 ≤ t := by
      rw [h2]; simp only [Option.getD_some]; omega
    rw [tick_of_end_le _ t hle2]
    show ((s.setCurrentPosition t).tickPhase1 t).active = false
    refine tickPhase1_not_activating _ t ?_
    rintro (⟨_, hb⟩ | ⟨_, hb⟩)
    · rw [h2] at hb; simp only [Option.getD_some] at hb; omega
    · rw [h1] at hb; simp at hb

/-- A tick never changes `started` once latched, and fires `onStart()`
only on the latching transition. -/
theorem tick_preserves_started (s : TLA) (t : ℤ) (h : s.started = true) :
    (s.setCurrentPosition t).started = true ∧
    (s.setCurrentPosition t).onStartCount = s.onStartCount := by
  unfold TLA.setCurrentPosition TLA.tickPhase1
  split_ifs <;> simp [h]

/-- Unfolding equations for `TLA.ticks`. -/
theorem ticks_nil (s : TLA) : s.ticks [] = s := rfl

theorem ticks_cons (s : TLA) (t : ℤ) (l : List ℤ) :
    s.ticks (t :: l) = (s.setCurrentPosition t).ticks l := rfl

/-- Folded version of `tick_preserves_started`. -/
theorem ticks_preserve_started (s : TLA) (l : List ℤ) (h : s.started = true) :
    (s.ticks l).started = true ∧ (s.ticks l).onStartCount = s.onStartCount := by
  induction l generalizing s with
  | nil => exact ⟨h, rfl⟩
  | cons t l ih =>
    have hstep := tick_preserves_started s t h
    have hrest := ih (s.setCurrentPosition t) hstep.1
    refine ⟨hrest.1, ?_⟩
    rw [ticks_cons, hrest.2, hstep.2]

/-- Folded versions of the timing-field preservation lemmas. -/
theorem ticks_duration (s : TLA) (l : List ℤ) : (s.ticks l).duration = s.duration := by
  induction l generalizing s with
  | nil => rfl
  | cons t l ih =>
    rw [ticks_cons, ih, tick_duration]

theorem ticks_absoluteStart (s : TLA) (l : List ℤ) :
    (s.ticks l).absoluteStart = s.absoluteStart := by
  induction l generalizing s with
  | nil => rfl
  | cons t l ih =>
    rw [ticks_cons, ih, tick_absoluteStart]

theorem ticks_absoluteEnd (s : TLA) (l : List ℤ) :
    (s.ticks l).absoluteEnd = s.absoluteEnd := by
  induction l generalizing s with
  | nil => rfl
  | cons t l ih =>
    rw [ticks_cons, ih, tick_absoluteEnd]

/-- Behaviour of a single tick inside the active window `[t0, t0 + d]` of an
armed animation with positive duration `d`: the call activates, latches
`started` (firing `onStart()` exactly when it was not yet latched), and sets
`progress = min(100, round(100 × (t − t0) / d))`. -/
theorem tick_in_window (d t0 t : ℤ) (s : TLA) (hd : 0 < d)
    (hdur : s.duration = d) (hst : s.absoluteStart = t0)
    (hend : s.absoluteEnd = some (t0 + d))
    (h1 : t0 ≤ t) (h2 : t ≤ t0 + d) :
    (s.setCurrentPosition t).active = true ∧
    (s.setCurrentPosition t).started = true ∧
    (s.setCurrentPosition t).progress =
      min 100 (round ((100 * ((t : ℚ) - (t0 : ℚ))) / (d : ℚ))) ∧
    (s.setCurrentPosition t).onStartCount =
      (if s.started = true then s.onStartCount else s.onStartCount + 1) := by
  have hg : (s.absoluteStart ≤ t ∧ t ≤ s.absoluteEnd.getD 0) ∨
      (s.active = true ∧ s.ended = false) := by
    left
    rw [hst, hend]
    exact ⟨h1, by simpa using h2⟩
  have hph : s.tickPhase1 t =
      { s with
        started := true
        onStartCount := if s.started then s.onStartCount else s.onStartCount + 1
        active := true
        absoluteCurrent := some t
        progress :=
          min (round ((100 / (s.duration : ℚ)) * ((t : ℚ) - (s.absoluteStart : ℚ)))) 100 } := by
    unfold TLA.tickPhase1
    rw [if_pos hg]
  have hd0 : ((d : ℚ)) ≠ 0 := by
    exact_mod_cast (by omega : d ≠ 0)
  rcases eq_or_lt_of_le h2 with heq | hlt
  · -- t = t0 + d: the trailing `if` overwrites progress with 100
    have hle : s.absoluteEnd.getD 0 ≤ t := by rw [hend]; simp [heq.symm.le]
    rw [tick_of_end_le s t hle]
    have hround : round ((100 * ((t : ℚ) - (t0 : ℚ))) / (d : ℚ)) = 100 := by
      have ht' : ((t : ℚ) - (t0 : ℚ)) = (d : ℚ) := by
        subst heq; push_cast; ring
      rw [ht', mul_div_assoc, div_self hd0, mul_one]
      exact_mod_cast round_intCast (α := ℚ) 100
    refine ⟨by rw [hph], by rw [hph], ?_, by rw [hph]⟩
    show (100 : ℤ) = _
    rw [hround]
    simp
  · -- t < t0 + d: no trailing overwrite
    have hn1 : ¬ s.absoluteEnd.getD 0 ≤ t := by rw [hend]; simp; omega
    have hn2 : ¬ t < s.absoluteStart := by rw [hst]; omega
    have hsc : s.setCurrentPosition t = s.tickPhase1 t := by
      unfold TLA.setCurrentPosition
      rw [if_neg hn1, if_neg hn2]
    rw [hsc, hph]
    refine ⟨rfl, rfl, ?_, rfl⟩
    show min (round ((100 / (s.duration : ℚ)) * ((t : ℚ) - (s.absoluteStart : ℚ)))) 100 = _
    rw [hdur, hst, div_mul_eq_mul_div, min_comm]

/-- C4: a run of an armed animation with duration `d > 0`, absolute start
`t0`, over any non-empty sequence of tick times inside `[t0, t0 + d]`:
`onStart()` fires exactly once over the whole run — on the first call —
and every call of the run sets `active = true` and
`progress = min(100, round(100 × (t − t0) / d))`. -/
theorem animation_run_spec (t0 d : ℤ) (hd : 0 < d) (s s1 : TLA)
    (hdur : s.duration = d) (hstarted : s.started = false) (hcnt : s.onStartCount = 0)
    (habs : s.setAbsolutePosition t0 = .ok s1)
    (ts : List ℤ) (hts : ∀ t ∈ ts, t0 ≤ t ∧ t ≤ t0 + d) :
    (∀ t1 tl, ts = t1 :: tl →
        (s1.setCurrentPosition t1).onStartCount = 1 ∧ (s1.ticks ts).onStartCount = 1) ∧
    (∀ pre t post, ts = pre ++ t :: post →
        ((s1.ticks pre).setCurrentPosition t).active = true ∧
        ((s1.ticks pre).setCurrentPosition t).progress =
          min 100 (round ((100 * ((t : ℚ) - (t0 : ℚ))) / (d : ℚ)))) := by
  have hdz : ¬ s.duration = 0 := by omega
  have hs1 : s1 = { s with absoluteStart := t0, absoluteEnd := some (t0 + s.duration) } := by
    unfold TLA.setAbsolutePosition at habs
    rw [if_neg hdz] at habs
    exact (Except.ok.inj habs).symm
  have hs1dur : s1.duration = d := by rw [hs1]; exact hdur
  have hs1st : s1.absoluteStart = t0 := by rw [hs1]
  have hs1end : s1.absoluteEnd = some (t0 + d) := by rw [hs1]; simp [hdur]
  have hs1started : s1.started = false := by rw [hs1]; exact hstarted
  have hs1cnt : s1.onStartCount = 0 := by rw [hs1]; exact hcnt
  constructor
  · rintro t1 tl rfl
    have hw := hts t1 (by simp)
    have h1 := tick_in_window d t0 t1 s1 hd hs1dur hs1st hs1end hw.1 hw.2
    have hcnt1 : (s1.setCurrentPosition t1).onStartCount = 1 := by
      rw [h1.2.2.2, hs1started]
      simp [hs1cnt]
    refine ⟨hcnt1, ?_⟩
    rw [TLA.ticks, List.foldl_cons]
    have := ticks_preserve_started (s1.setCurrentPosition t1) tl h1.2.1
    rw [TLA.ticks] at this
    rw [this.2, hcnt1]
  · rintro pre t post rfl
    have hw := hts t (by simp)
    exact ⟨(tick_in_window d t0 t (s1.ticks pre) hd
        (by rw [ticks_duration]; exact hs1dur)
        (by rw [ticks_absoluteStart]; exact hs1st)
        (by rw [ticks_absoluteEnd]; exact hs1end) hw.1 hw.2).1,
      (tick_in_window d t0 t (s1.ticks pre) hd
        (by rw [ticks_duration]; exact hs1dur)
        (by rw [ticks_absoluteStart]; exact hs1st)
        (by rw [ticks_absoluteEnd]; exact hs1end) hw.1 hw.2).2.2.1⟩

/-- Witness for `animation_run_spec`: the 10 ms animation `fadeTLA`, armed
at 0 and ticked at times 0, 5, 10, fires `onStart` exactly once and shows
50% progress at its middle tick. -/
theorem animation_run_spec_witness :
    (armedTLA.ticks [0, 5, 10]).onStartCount = 1 ∧
    ((armedTLA.ticks [0]).setCurrentPosition 5).progress =
      min 100 (round ((100 * ((5 : ℚ) - (0 : ℚ))) / (10 : ℚ))) := by
  have h := animation_run_spec 0 10 (by decide) fadeTLA armedTLA rfl rfl rfl rfl
    [0, 5, 10] (by decide)
  exact ⟨(h.1 0 [5, 10] rfl).2, (h.2 [0] 5 [10] rfl).2⟩

/-- Duration update of a single `add` is a `max`. -/
theorem add_duration (tl : TimeLine) (k : ℕ) (a : TLA) :
    (tl.add k a).duration = max tl.duration ((k : ℤ) + a.duration) := by
  simp [TimeLine.add, max_def]

/-- Duration after a sequence of `add` calls is the running `max` of
`offset + duration` over the added items. -/
theorem addAll_duration (tl : TimeLine) (l : List (ℕ × TLA)) :
    (tl.addAll l).duration =
      (l.map (fun p => (p.1 : ℤ) + p.2.duration)).foldl max tl.duration := by
  induction l generalizing tl with
  | nil => rfl
  | cons p l ih =>
    show ((tl.add p.1 p.2).addAll l).duration = _
    rw [ih, add_duration]
    rfl

theorem foldl_max_le_self (l : List ℤ) (a : ℤ) : a ≤ l.foldl max a := by
  induction l generalizing a with
  | nil => exact le_refl a
  | cons x l ih => exact le_trans (le_max_left a x) (ih (max a x))

theorem le_foldl_max (l : List ℤ) (a : ℤ) : ∀ x ∈ l, x ≤ l.foldl max a := by
  induction l generalizing a with
  | nil => intro x hx; cases hx
  | cons y l ih =>
    intro x hx
    rcases List.mem_cons.mp hx with rfl | hx
    · exact le_trans (le_max_right a x) (foldl_max_le_self l (max a x))
    · exact ih (max a y) x hx

theorem foldl_max_mem (l : List ℤ) (a : ℤ) :
    l.foldl max a = a ∨ l.foldl max a ∈ l := by
  induction l generalizing a with
  | nil => left; rfl
  | cons x l ih =>
    rcases ih (max a x) with h | h
    · rcases max_choice a x with hax | hax
      · left; rw [List.foldl_cons, h, hax]
      · right; rw [List.foldl_cons, h, hax]; exact List.mem_cons_self x l
    · right; exact List.mem_cons_of_mem x h

/-- C8: after any finite sequence of `add(offset, animation)` calls on a
fresh timeline (with the nonnegative durations every validated animation
has), the container duration is `0` for the empty sequence and otherwise
equals the maximum over all added items of `offset + item.duration`. -/
theorem timeline_duration_is_max (l : List (ℕ × TLA))
    (h : ∀ p ∈ l, 0 ≤ p.2.duration) :
    (l = [] → (emptyTimeLine.addAll l).duration = 0) ∧
    (l ≠ [] →
      (emptyTimeLine.addAll l).duration ∈ l.map (fun p => (p.1 : ℤ) + p.2.duration) ∧
      ∀ x ∈ l.map (fun p => (p.1 : ℤ) + p.2.duration),
        x ≤ (emptyTimeLine.addAll l).duration) := by
  have hdur : (emptyTimeLine.addAll l).duration =
      (l.map (fun p => (p.1 : ℤ) + p.2.duration)).foldl max 0 := addAll_duration _ _
  constructor
  · rintro rfl; rfl
  · intro hne
    refine ⟨?_, ?_⟩
    · rcases foldl_max_mem (l.map (fun p => (p.1 : ℤ) + p.2.duration)) 0 with h0 | hmem
      · rw [hdur, h0]
        cases l with
        | nil => exact absurd rfl hne
        | cons p ps =>
          have hmemhd : (p.1 : ℤ) + p.2.duration ∈
              ((p :: ps).map (fun p => (p.1 : ℤ) + p.2.duration)) := by
            exact List.mem_map_of_mem _ (List.mem_cons_self p ps)
          have h1 : (p.1 : ℤ) + p.2.duration ≤ 0 := by
            have := le_foldl_max ((p :: ps).map (fun p => (p.1 : ℤ) + p.2.duration)) 0
              _ hmemhd
            rw [h0] at this
            exact this
          have h2 : 0 ≤ (p.1 : ℤ) + p.2.duration :=
            add_nonneg (Int.natCast_nonneg _) (h p (List.mem_cons_self p ps))
          have h3 : (p.1 : ℤ) + p.2.duration = 0 := le_antisymm h1 h2
          exact h3 ▸ hmemhd
      · rw [hdur]; exact hmem
    · intro x hx
      rw [hdur]
      exact le_foldl_max _ 0 x hx

/-- Witness for `timeline_duration_is_max`: adding a 1000 ms item at
offset 0 and a 1000 ms item at offset 500 makes the duration one of the
item ends. -/
theorem timeline_duration_is_max_witness :
    (emptyTimeLine.addAll [(0, itemB), (500, itemA)]).duration ∈
      [((0 : ℕ), itemB), ((500 : ℕ), itemA)].map
        (fun p => (p.1 : ℤ) + p.2.duration) :=
  ((timeline_duration_is_max _ (by decide)).2 (by decide)).1

/-- Flattening per-slot filters equals filtering the flattened queue. -/
theorem flatten_map_filter (q : List (ℕ × List TLA)) (f : TLA → Bool) :
    (q.map (fun p => p.2.filter f)).flatten = ((q.map Prod.snd).flatten).filter f := by
  induction q with
  | nil => rfl
  | cons p q ih => simp [List.filter_append, ih]

/-- Keys after an insertion come from the inserted key or the old queue. -/
theorem insertQueue_keys_subset (k : ℕ) (a : TLA) (q : List (ℕ × List TLA)) :
    ∀ x ∈ (insertQueue k a q).map Prod.fst, x = k ∨ x ∈ q.map Prod.fst := by
  induction q with
  | nil =>
    intro x hx
    simp [insertQueue] at hx
    left; exact hx
  | cons p q ih =>
    rcases p with ⟨j, items⟩
    intro x hx
    by_cases h1 : k = j
    · simp only [insertQueue, if_pos h1, List.map_cons, List.mem_cons] at hx
      rcases hx with rfl | hx
      · right; simp
      · right; simp [hx]
    · by_cases h2 : k < j
      · simp only [insertQueue, if_neg h1, if_pos h2, List.map_cons, List.mem_cons] at hx
        rcases hx with rfl | hx
        · left; rfl
        · right; simpa using hx
      · simp only [insertQueue, if_neg h1, if_neg h2, List.map_cons, List.mem_cons] at hx
        rcases hx with rfl | hx
        · right; simp
        · rcases ih x hx with h | h
          · left; exact h
          · right; simp [h]

/-- Insertion keeps the queue keys strictly ascending. -/
theorem insertQueue_sorted (k : ℕ) (a : TLA) (q : List (ℕ × List TLA))
    (h : (q.map Prod.fst).Pairwise (· < ·)) :
    ((insertQueue k a q).map Prod.fst).Pairwise (· < ·) := by
  induction q with
  | nil => simp [insertQueue]
  | cons p q ih =>
    rcases p with ⟨j, items⟩
    rw [List.map_cons, List.pairwise_cons] at h
    rcases h with ⟨hj, hq⟩
    by_cases h1 : k = j
    · simp only [insertQueue, if_pos h1, List.map_cons]
      exact List.pairwise_cons.mpr ⟨hj, hq⟩
    · by_cases h2 : k < j
      · simp only [insertQueue, if_neg h1, if_pos h2, List.map_cons]
        refine List.pairwise_cons.mpr ⟨?_, List.pairwise_cons.mpr ⟨hj, hq⟩⟩
        intro x hx
        rcases List.mem_cons.mp hx with rfl | hx
        · exact h2
        · exact lt_trans h2 (hj x hx)
      · have h3 : j < k := by omega
        simp only [insertQueue, if_neg h1, if_neg h2, List.map_cons]
        refine List.pairwise_cons.mpr ⟨?_, ih hq⟩
        intro x hx
        rcases insertQueue_keys_subset k a q x hx with rfl | hx
        · exact h3
        · exact hj x hx

/-- A key that does not occur in the queue has the empty group. -/
theorem groupOf_of_not_mem (q : List (ℕ × List TLA)) (k : ℕ)
    (h : k ∉ q.map Prod.fst) :
    groupOf q k = [] := by
  unfold groupOf
  rw [List.find?_eq_none.mpr]
  · rfl
  · intro p hp
    simp only [beq_iff_eq]
    intro hk
    exact h (hk ▸ List.mem_map_of_mem Prod.fst hp)

/-- Pushing onto an existing queue slot. -/
theorem insertQueue_push (k : ℕ) (a : TLA) (items : List TLA)
    (q : List (ℕ × List TLA)) :
    insertQueue k a ((k, items) :: q) = (k, items ++ [a]) :: q := by
  unfold insertQueue
  rw [if_pos rfl]

/-- Finding a slot skips a head with a different key. -/
theorem findSlot_cons_ne (x j : ℕ) (items : List TLA) (q : List (ℕ × List TLA))
    (h : x ≠ j) :
    List.find? (fun p : ℕ × List TLA => p.1 == j) ((x, items) :: q) =
      List.find? (fun p : ℕ × List TLA => p.1 == j) q :=
  List.find?_cons_of_neg _ (by simp [h])

/-- Finding a slot stops at a head with the matching key. -/
theorem findSlot_cons_eq (x : ℕ) (items : List TLA) (q : List (ℕ × List TLA)) :
    List.find? (fun p : ℕ × List TLA => p.1 == x) ((x, items) :: q) =
      some (x, items) :=
  List.find?_cons_of_pos _ (by simp)

/-- Inserting key `k` appends the new item to slot `k` (ascending queue). -/
theorem groupOf_insert_eq (k : ℕ) (a : TLA) (q : List (ℕ × List TLA))
    (h : (q.map Prod.fst).Pairwise (· < ·)) :
    groupOf (insertQueue k a q) k = groupOf q k ++ [a] := by
  induction q with
  | nil => simp [insertQueue, groupOf]
  | cons p q ih =>
    rcases p with ⟨j, items⟩
    rw [List.map_cons, List.pairwise_cons] at h
    rcases h with ⟨hj, hq⟩
    by_cases h1 : k = j
    · subst h1
      rw [insertQueue_push]
      unfold groupOf
      rw [findSlot_cons_eq, findSlot_cons_eq]
      simp
    · by_cases h2 : k < j
      · have hnot : k ∉ ((j, items) :: q).map Prod.fst := by
          rw [List.map_cons]
          intro hx
          rcases List.mem_cons.mp hx with rfl | hx
          · exact h1 rfl
          · exact absurd (hj k hx) (by omega)
        rw [groupOf_of_not_mem _ _ hnot]
        simp only [insertQueue, if_neg h1, if_pos h2]
        unfold groupOf
        rw [findSlot_cons_eq]
        simp
      · simp only [insertQueue, if_neg h1, if_neg h2]
        unfold groupOf
        rw [findSlot_cons_ne j k items _ (fun hx => h1 hx.symm),
          findSlot_cons_ne j k items _ (fun hx => h1 hx.symm)]
        exact ih hq

/-- Inserting key `k` leaves every other slot untouched. -/
theorem groupOf_insert_ne (k : ℕ) (a : TLA) (q : List (ℕ × List TLA)) (j : ℕ)
    (h : j ≠ k) :
    groupOf (insertQueue k a q) j = groupOf q j := by
  induction q with
  | nil =>
    unfold insertQueue groupOf
    rw [findSlot_cons_ne k j [a] _ (fun hx => h hx.symm)]
  | cons p q ih =>
    rcases p with ⟨i, items⟩
    by_cases h1 : k = i
    · subst h1
      rw [insertQueue_push]
      unfold groupOf
      rw [findSlot_cons_ne k j (items ++ [a]) _ (fun hx => h hx.symm),
        findSlot_cons_ne k j items _ (fun hx => h hx.symm)]
    · by_cases h2 : k < i
      · simp only [insertQueue, if_neg h1, if_pos h2]
        unfold groupOf
        rw [findSlot_cons_ne k j [a] _ (fun hx => h hx.symm)]
      · simp only [insertQueue, if_neg h1, if_neg h2]
        unfold groupOf
        by_cases h3 : i = j
        · subst h3
          rw [findSlot_cons_eq, findSlot_cons_eq]
        · rw [findSlot_cons_ne i j items _ h3, findSlot_cons_ne i j items _ h3]
          exact ih

/-- Sortedness of the queue keys is an `addAll` invariant. -/
theorem addAll_queue_sorted (l : List (ℕ × TLA)) (tl : TimeLine)
    (h : (tl.queue.map Prod.fst).Pairwise (· < ·)) :
    (((tl.addAll l).queue).map Prod.fst).Pairwise (· < ·) := by
  induction l generalizing tl with
  | nil => exact h
  | cons p l ih =>
    show ((((tl.add p.1 p.2).addAll l).queue).map Prod.fst).Pairwise (· < ·)
    exact ih _ (insertQueue_sorted _ _ _ h)

/-- After a sequence of `add` calls, slot `k` holds the old slot content
followed by exactly the added items with offset `k`, in insertion order. -/
theorem addAll_group (l : List (ℕ × TLA)) (tl : TimeLine) (k : ℕ)
    (h : (tl.queue.map Prod.fst).Pairwise (· < ·)) :
    groupOf ((tl.addAll l).queue) k =
      groupOf tl.queue k ++
        (l.filter (fun p => p.1 == k)).map
          (fun p => p.2.setRelativePosition (p.1 : ℤ)) := by
  induction l generalizing tl with
  | nil => simp [TimeLine.addAll]
  | cons p l ih =>
    show groupOf (((tl.add p.1 p.2).addAll l).queue) k = _
    rw [ih _ (insertQueue_sorted _ _ _ h)]
    by_cases hk : p.1 = k
    · subst hk
      rw [show groupOf ((tl.add p.1 p.2).queue) p.1 =
            groupOf tl.queue p.1 ++ [p.2.setRelativePosition (p.1 : ℤ)] from
          groupOf_insert_eq _ _ _ h]
      rw [List.filter_cons_of_pos (by simp), List.map_cons, List.append_assoc]
      rfl
    · rw [show groupOf ((tl.add p.1 p.2).queue) k = groupOf tl.queue k from
          groupOf_insert_ne _ _ _ _ (fun hx => hk hx.symm)]
      rw [List.filter_cons_of_neg (by simpa using hk)]

/-- C9 counterexample: the timeline built by `add(500, itemA)` then
`add(0, itemB)` (insertion order `[itemA, itemB]`), ticked at `t = 600`
where both items are active, returns its active items as
`[itemB, itemA]` — ascending offset order (`relativeStart` 0 before 500),
not insertion order. -/
theorem active_items_order_cex :
    ((cexTimeLine.setCurrentPosition 600).getActiveItems).1.map TLA.relativeStart
      = [0, 500] ∧
    ((cexTimeLine.setCurrentPosition 600).getActiveItems).1.map TLA.relativeStart
      ≠ [500, 0] := by
  constructor
  · decide
  · decide

/-- C9 (amended): `setCurrentPosition` ticks every scheduled item, and
`getActiveItems` returns exactly the items whose `active` flag is set, in
queue-iteration order: ascending start offset (queue keys are strictly
ascending), and insertion order among items sharing an offset — not global
insertion order. -/
theorem timeline_active_items_spec (l : List (ℕ × TLA)) (t : ℤ) (k : ℕ) :
    ((emptyTimeLine.addAll l).setCurrentPosition t).queue =
      (emptyTimeLine.addAll l).queue.map
        (fun p => (p.1, p.2.map (fun i => i.setCurrentPosition t))) ∧
    (((emptyTimeLine.addAll l).setCurrentPosition t).getActiveItems).1 =
      (((emptyTimeLine.addAll l).setCurrentPosition t).allItems).filter
        (fun i => i.active) ∧
    (((emptyTimeLine.addAll l).queue).map Prod.fst).Pairwise (· < ·) ∧
    groupOf ((emptyTimeLine.addAll l).queue) k =
      (l.filter (fun p => p.1 == k)).map
        (fun p => p.2.setRelativePosition (p.1 : ℤ)) := by
  refine ⟨rfl, flatten_map_filter _ _,
    addAll_queue_sorted l emptyTimeLine (by simp [emptyTimeLine]), ?_⟩
  have h := addAll_group l emptyTimeLine k (by simp [emptyTimeLine])
  simpa [groupOf, emptyTimeLine] using h

/-- Writing a zero preserves a zero anywhere on the device. -/
theorem setPwm_zero_preserve (d ch x y : ℕ) (f : ℕ → ℕ → ℤ) (h : f x y = 0) :
    setPwm d ch 0 f x y = 0 := by
  unfold setPwm
  split_ifs <;> simp [h]

/-- Zero-writing a list of channels preserves zeros. -/
theorem foldl_setPwm_zero_preserve (d : ℕ) (l : List ℕ) (f : ℕ → ℕ → ℤ)
    (x y : ℕ) (h : f x y = 0) :
    (l.foldl (fun g ch => setPwm d ch 0 g) f) x y = 0 := by
  induction l generalizing f with
  | nil => exact h
  | cons c l ih => exact ih _ (setPwm_zero_preserve _ _ _ _ _ h)

/-- Zero-writing a list of channels zeroes every listed channel. -/
theorem foldl_setPwm_zero_mem (d : ℕ) (l : List ℕ) (f : ℕ → ℕ → ℤ)
    (ch : ℕ) (h : ch ∈ l) :
    (l.foldl (fun g ch => setPwm d ch 0 g) f) d ch = 0 := by
  induction l generalizing f with
  | nil => cases h
  | cons c l ih =>
    rcases List.mem_cons.mp h with rfl | h
    · exact foldl_setPwm_zero_preserve d l _ d ch (by unfold setPwm; simp)
    · exact ih _ h

/-- The reset loop of `setPinMapping` preserves zeros. -/
theorem resetAll_preserve (ds : List ℕ) (f : ℕ → ℕ → ℤ) (x y : ℕ) (h : f x y = 0) :
    (ds.foldl (fun f d => (List.range 16).foldl (fun g ch => setPwm d ch 0 g) f) f) x y
      = 0 := by
  induction ds generalizing f with
  | nil => exact h
  | cons d0 ds ih => exact ih _ (foldl_setPwm_zero_preserve _ _ _ _ _ h)

/-- The reset loop of `setPinMapping` zeroes all 16 channels of every
registered driver. -/
theorem resetAll_zero (ds : List ℕ) (f : ℕ → ℕ → ℤ) (d ch : ℕ)
    (hd : d ∈ ds) (hch : ch < 16) :
    (ds.foldl (fun f d => (List.range 16).foldl (fun g ch => setPwm d ch 0 g) f) f) d ch
      = 0 := by
  induction ds generalizing f with
  | nil => cases hd
  | cons d0 ds ih =>
    rcases List.mem_cons.mp hd with rfl | hd
    · exact resetAll_preserve ds _ d ch
        (foldl_setPwm_zero_mem d _ f ch (List.mem_range.mpr hch))
    · exact ih _ hd

/-- The pin-initialisation loop of `setPinMapping` (zero writes only)
preserves zeros. -/
theorem initPins_preserve (m : List MapEntry) (ds : List ℕ) (f : ℕ → ℕ → ℤ)
    (x y : ℕ) (h : f x y = 0) :
    (m.foldl (fun f e => if e.driver ∈ ds then setPwm e.driver e.pin 0 f else f) f) x y
      = 0 := by
  induction m generalizing f with
  | nil => exact h
  | cons e m ih =>
    simp only [List.foldl_cons]
    by_cases hm : e.driver ∈ ds
    · rw [if_pos hm]
      exact ih _ (setPwm_zero_preserve _ _ _ _ _ h)
    · rw [if_neg hm]
      exact ih _ h

/-- C5: after `setPinMapping(M2)` every valid `(driver, channel)` pair of
the previous mapping `M1` (driver registered, channel `< 16`) — in
particular every pair in `M1 \ M2` — has been written brightness `0`; the
authoritative map equals `M2`; the lookup cache is invalidated, so a
subsequent `getMappedPin` resolves against `M2`. -/
theorem setPinMapping_spec (st : PinMapperSt) (m2 : List MapEntry) (e : MapEntry)
    (_he : e ∈ st.pinMapping) (hd : e.driver ∈ st.drivers) (hp : e.pin < 16)
    (_hnot : e ∉ m2) :
    (st.setPinMapping m2).device e.driver e.pin = 0 ∧
    (st.setPinMapping m2).pinMapping = m2 ∧
    (st.setPinMapping m2).lookupCache = none ∧
    ∀ step, ((st.setPinMapping m2).getMappedPin step).1 = lookupStep m2 step := by
  refine ⟨?_, rfl, rfl, fun step => rfl⟩
  show (m2.foldl (fun f e => if e.driver ∈ st.drivers then setPwm e.driver e.pin 0 f else f)
      (st.drivers.foldl (fun f d => (List.range 16).foldl (fun g ch => setPwm d ch 0 g) f)
        st.device)) e.driver e.pin = 0
  exact initPins_preserve _ _ _ _ _ (resetAll_zero _ _ _ _ hd hp)

/-- Witness for `setPinMapping_spec`: remapping step 1 from channel 0 to
channel 5 zeroes the previously lit channel 0 and makes lookups resolve
to channel 5. -/
theorem setPinMapping_spec_witness :
    (demoPM.setPinMapping demoMapping2).device 64 0 = 0 ∧
    (demoPM.setPinMapping demoMapping2).pinMapping = demoMapping2 ∧
    ((demoPM.setPinMapping demoMapping2).getMappedPin 1).1 = some ⟨64, 5, 1⟩ := by
  have h := setPinMapping_spec demoPM demoMapping2 ⟨64, 0, 1⟩
    (by decide) (by decide) (by decide) (by decide)
  exact ⟨h.1, h.2.1, (h.2.2.2 1).trans (by decide)⟩

/-- C6: `setBrightness(s, v)` for a numeric `v`: when `s` resolves in the
pin map to an entry whose driver is registered, the clamped value
`min(max(v,0), 4095)` is recorded in the per-step cache and written to the
mapped `(driver, channel)`; when `s` is unknown, neither the brightness
cache nor any device state changes, and the failure is logged exactly once
per unique `(step, error)` key — a key already reported produces no new
log line. -/
theorem setBrightness_spec (st : PinMapperSt) (step : ℕ) (v : ℤ) :
    (∀ e, lookupStep (st.lookupCache.getD st.pinMapping) step = some e →
      e.driver ∈ st.drivers →
      (st.setBrightness step v).brightnesses step = some (min (max v 0) 4095) ∧
      (st.setBrightness step v).device e.driver e.pin = min (max v 0) 4095) ∧
    (lookupStep (st.lookupCache.getD st.pinMapping) step = none →
      (st.setBrightness step v).brightnesses = st.brightnesses ∧
      (st.setBrightness step v).device = st.device ∧
      ((step, unknownStepMsg) ∈ st.reported →
        (st.setBrightness step v).logs = st.logs) ∧
      ((step, unknownStepMsg) ∉ st.reported →
        (st.setBrightness step v).logs = (step, unknownStepMsg) :: st.logs ∧
        (step, unknownStepMsg) ∈ (st.setBrightness step v).reported)) := by
  constructor
  · intro e he hd
    simp only [PinMapperSt.setBrightness]
    split
    · next heq => rw [he] at heq; cases heq
    · next e2 heq =>
      rw [he] at heq
      injection heq with heq2
      subst heq2
      split_ifs
      constructor
      · simp
      · simp [setPwm]
  · intro he
    simp only [PinMapperSt.setBrightness]
    split
    · next heq =>
      unfold PinMapperSt.warnOnce
      split_ifs with hrep
      · exact ⟨rfl, rfl, fun _ => rfl, fun hn => absurd hrep hn⟩
      · exact ⟨rfl, rfl, fun hmem => absurd hmem hrep, fun _ => ⟨rfl, by simp⟩⟩
    · next e2 heq => rw [he] at heq; cases heq

/-- Witness for `setBrightness_spec`: on `demoPM`, step 1 maps to
`(0x40, 0)`, so `setBrightness(1, 5000)` caches and writes the clamped
4095; step 99 is unknown, so `setBrightness(99, 10)` leaves cache and
device alone and logs the unknown-step error once. -/
theorem setBrightness_spec_witness :
    (demoPM.setBrightness 1 5000).brightnesses 1 = some 4095 ∧
    (demoPM.setBrightness 1 5000).device 64 0 = 4095 ∧
    (demoPM.setBrightness 99 10).brightnesses = demoPM.brightnesses ∧
    (demoPM.setBrightness 99 10).logs = [(99, unknownStepMsg)] := by
  have h1 := (setBrightness_spec demoPM 1 5000).1 ⟨64, 0, 1⟩ (by decide) (by decide)
  have h2 := (setBrightness_spec demoPM 99 10).2 (by decide)
  refine ⟨h1.1.trans (by decide), h1.2.trans (by decide), h2.1, ?_⟩
  have h3 := (h2.2.2.2 (by simp [demoPM])).1
  rw [h3]
  simp [demoPM]

/-- C1: single-flight.  In every reachable state of the sensor-dispatch
step relation (indeed in every state) in which some animation has been
started and has not yet finished (`started` still set), an arriving
sensor sample never calls `start()` on any animation and leaves every
`started` flag unchanged: the `skip` check of `Sensor.trigger` sees the
running animation and drops the trigger. -/
theorem single_flight_guard (init st : DispatchSt) (_hreach : Reachable init st)
    (hstarted : anyStarted st.registry = true) (i : ℕ) (value now : ℤ) :
    (st.processTrigger i value now).startedAnim = none ∧
    (st.processTrigger i value now).state.registry = st.registry := by
  unfold DispatchSt.processTrigger
  split
  · exact ⟨rfl, rfl⟩
  · split_ifs with hc
    · unfold DispatchSt.trigger
      split
      · exact ⟨rfl, rfl⟩
      · split_ifs with hact
        · exact ⟨rfl, rfl⟩
        · split
          · exact ⟨rfl, rfl⟩
          · exact ⟨rfl, rfl⟩
    · exact ⟨rfl, rfl⟩

/-- Witness for `single_flight_guard`: sensor 0 of `demoDispatch` starts
`fade`; in the resulting reachable state a sample arriving at sensor 1 is
dropped and starts nothing. -/
theorem single_flight_guard_witness :
    ((demoDispatch.processTrigger 0 20 100).state.processTrigger 1 30 200).startedAnim
        = none ∧
    ((demoDispatch.processTrigger 0 20 100).state.processTrigger 1 30 200).state.registry
        = (demoDispatch.processTrigger 0 20 100).state.registry :=
  single_flight_guard demoDispatch (demoDispatch.processTrigger 0 20 100).state
    (Relation.ReflTransGen.single (DispatchStep.trigger 0 20 100 demoDispatch))
    (by decide) 1 30 200

/-- C3 counterexample: sensor 0 of `demoDispatch` targets the 5000 ms
animation `fade`, yet its trigger schedules `sensor.active = false` after
the fixed 2000 ms of `setTimeout(() => { this.active = false }, 2000)`,
not after `max(2000, 5000) = 5000` ms. -/
theorem trigger_clear_delay_cex :
    (demoDispatch.processTrigger 0 20 100).clearDelay = some 2000 ∧
    (lookupAnim demoDispatch.registry "fade").map Anim.duration = some 5000 ∧
    (demoDispatch.processTrigger 0 20 100).clearDelay ≠ some (max 2000 5000) := by
  refine ⟨by decide, by decide, by decide⟩

/-- C3 (amended): when a sample matching the configured comparison arrives
at an enabled, inactive sensor, the dispatcher sets `sensor.active = true`,
records the trigger time, and schedules `sensor.active = false` after a
fixed delay of 2000 ms — independent of the animation's duration. -/
theorem trigger_activation_spec (st : DispatchSt) (i : ℕ) (s : SensorSt)
    (value now : ℤ) (hs : st.sensors[i]? = some s) (_hen : s.enabled = true)
    (hc : condMatches s.triggerType value s.triggerThreshold = true)
    (hact : s.active = false) :
    (st.processTrigger i value now).state.sensors[i]? =
      some { s with active := true, lastTriggered := some now } ∧
    (st.processTrigger i value now).clearDelay = some 2000 := by
  have hlen : i < st.sensors.length := (List.getElem?_eq_some.mp hs).1
  unfold DispatchSt.processTrigger DispatchSt.trigger
  rw [hs]
  dsimp only
  rw [if_pos hc, if_neg (by simp [hact])]
  split
  · split_ifs <;> exact ⟨List.getElem?_set_eq_of_lt _ hlen, rfl⟩
  · exact ⟨List.getElem?_set_eq_of_lt _ hlen, rfl⟩

/-- Witness for `trigger_activation_spec`: sensor 0 of `demoDispatch`
receives the matching sample 20 at time 100. -/
theorem trigger_activation_spec_witness :
    (demoDispatch.processTrigger 0 20 100).state.sensors[0]? =
      some { demoSensor with active := true, lastTriggered := some 100 } ∧
    (demoDispatch.processTrigger 0 20 100).clearDelay = some 2000 :=
  trigger_activation_spec demoDispatch 0 demoSensor 20 100
    (by decide) (by decide) (by decide) (by decide)

/-- Witness for `tick_past_end_state` at a concrete input. -/
theorem tick_past_end_state_witness :
    (runningTLA.setCurrentPosition 12).progress = 100 ∧
    (runningTLA.setCurrentPosition 12).ended = true ∧
    ((runningTLA.setCurrentPosition 12).setCurrentPosition 12).active = false := by
  have h := tick_past_end_state runningTLA 10 12 rfl (by decide)
  exact ⟨h.1, h.2.1, h.2.2.2⟩

end Stairled
